import Mathlib

set_option maxRecDepth 4000

/-!
Shallow embedding of `src/_modules/hubble.py` (the HubbleStack Nova audit
dispatcher): profile selection, audit fan-out with per-module fault
isolation, result merging, compensating-control resolution, compliance
computation, and terse/verbose rendering for the `audit` and `top` entry
points.

Modelling conventions:
* Python strings are `String`; `str.split(sep)` is reimplemented on
  character lists (`splitChars`) so that concrete runs reduce in the kernel.
* Python dictionaries are ordered association lists: `dget` is `d.get(k)`,
  `dset` is `d[k] = v` (replace-in-place or append), `extendAt` is the
  idiom `if k not in d : d[k] = []` followed by `d[k].extend(vs)`.
  CPython 2.7 dictionaries do not guarantee iteration order; wherever the
  source iterates a dictionary the embedding fixes insertion order, and no
  theorem below depends on a particular class-key or module order.
* Integer arithmetic is exact (`Nat`).  The compliance ratio, which the
  source evaluates in CPython binary floating point
  (`float(s + c) / total * 100` then `int`), is modelled bit-exactly:
  `Dyadic` values `m * 2^exp` with round-to-nearest-even to 53 significant
  bits (`rneNatRatio`) reproduce IEEE-754 binary64 conversion, division
  and multiplication for every value in the normal range (the exponent is
  unbounded, so overflow -- a CPython `OverflowError` for counts beyond
  `2^1024`, unreachable for in-memory result lists -- and subnormals --
  which would need a total beyond `2^1074` -- are not modelled).
* The out-of-scope loader, salt configuration source and file sync are
  snapshots passed in through `Env`; audit modules are opaque functions
  from `(data_list, tags, kwargs)` to an outcome (`ModuleRet`).
-/

namespace Hubble

/-- Python `str.split(sep)` worker on character lists, with explicit fuel
(one unit per consumed character) so that it is structurally recursive and
kernel-reducible. `sep` is assumed non-empty, as in Python where
`split('')` raises. -/
def splitGo (sep : List Char) : Nat → List Char → List Char → List (List Char)
  | 0, _, cur => [cur.reverse]
  | _ + 1, [], cur => [cur.reverse]
  | fuel + 1, c :: cs, cur =>
    if sep.isPrefixOf (c :: cs) then
      cur.reverse :: splitGo sep fuel (cs.drop (sep.length - 1)) []
    else
      splitGo sep fuel cs (c :: cur)

/-- Python `str.split(sep)` (explicit separator form) on character lists:
splits on every non-overlapping occurrence of `sep`, keeping empty pieces,
so that `splitChars "/" "/a/b" = ["", "a", "b"]`. -/
def splitChars (sep l : List Char) : List (List Char) := splitGo sep l.length l []

/-- `os.path.sep` on the reference platform. -/
def pathSep : Char := '/'

/-- Python `s.split('.yaml')[0]`: the prefix of `s` before the first
occurrence of the substring `.yaml` (all of `s` when absent). -/
def stripYamlChars (l : List Char) : List Char := (splitChars ".yaml".data l).headD l

/-- Python `key.split('.yaml')[0].split(os.path.sep)[-1]`: the short
profile name used as the first component of a `data_list` pair
(`_run_audit`, line 272). -/
def lastSegment (key : String) : String :=
  ⟨(splitChars [pathSep] (stripYamlChars key.data)).getLastD []⟩

/-- Config normalization in `audit` (line 138):
`os.path.join(os.path.sep, os.path.join(*(con.split('.yaml')[0]).split('.')))`.
`os.path.join` is modelled as interposing the separator, which is exact for
the separator-free non-empty segments produced by dot-splitting a config
name. -/
def configToPath (con : String) : String :=
  ⟨pathSep :: List.intercalate [pathSep] (splitChars ['.'] (stripYamlChars con.data))⟩

/-- Python `d.get(k)` over an ordered association list (first binding
wins, as for a dictionary, which holds each key once). -/
def dget {α : Type} : List (String × α) → String → Option α
  | [], _ => none
  | (k', v) :: rest, k => if k' = k then some v else dget rest k

/-- Python `d.get(k, v₀)`. -/
def dgetD {α : Type} (d : List (String × α)) (k : String) (v₀ : α) : α :=
  (dget d k).getD v₀

/-- Python `d[k] = v`: replace the binding in place when the key is
present, otherwise append a new binding. -/
def dset {α : Type} : List (String × α) → String → α → List (String × α)
  | [], k, v => [(k, v)]
  | (k', v') :: rest, k, v =>
    if k' = k then (k, v) :: rest else (k', v') :: dset rest k v

/-- The merge idiom of `_run_audit` (lines 304-307) and `top`
(lines 487-490): `if k not in d : d[k] = []` then `d[k].extend(vs)`. -/
def extendAt {α : Type} (d : List (String × List α)) (k : String) (vs : List α) :
    List (String × List α) :=
  dset d k (dgetD d k [] ++ vs)

/-- A result entry emitted by an audit module: a dictionary with at least a
`tag`, an optional `description`, and -- after compensating-control
resolution -- possibly a `control` field.  `control = none` models the key
being absent; `control = some r` models the key being present with value
`r` (where `r = none` is Python `None`, the value of
`processed_controls[tag].get('reason')` for a reason-less control). -/
structure Entry where
  tag : String
  description : Option String := none
  control : Option (Option String) := none
  deriving Repr, DecidableEq

/-- The payload of one `Errors` entry: `error` is the message, `data` the
optional extra datum (last traceback line, or the repr of a bad module
return value). -/
structure ErrInfo where
  error : String
  data : Option String := none
  deriving Repr, DecidableEq

/-- The accumulating result dictionary of `_run_audit`.  Outcome classes
(`Success`, `Failure`, `Controlled`, and any other key a module returns)
live in `classes`; the `Errors` list of single-key dictionaries
`(source-key, ErrInfo)` is kept as the separate `errors` field (an empty
list plays the role of the absent key). -/
structure Results where
  classes : List (String × List Entry) := []
  errors : List (String × ErrInfo) := []
  deriving Repr, DecidableEq

/-- Fuel-based worker for the floor of the base-2 logarithm (the fuel --
one unit per halving -- makes it structurally recursive and
kernel-reducible). -/
def log2go : Nat → Nat → Nat
  | 0, _ => 0
  | f + 1, n => if n < 2 then 0 else log2go f (n / 2) + 1

/-- Floor of the base-2 logarithm (`0` at `0`), used to locate the binary
exponent of a float result. -/
def natLog2 (n : Nat) : Nat := log2go n n

/-- A non-negative binary64 value `m * 2^exp` with unbounded exponent.
Results of `rneNatRatio` carry a 53-bit significand, exactly the doubles
CPython computes with in `_calculate_compliance` (line 646). -/
structure Dyadic where
  m : Nat
  exp : Int
  deriving Repr, DecidableEq

/-- Decides `a / b < 2^t` over naturals, for a signed exponent `t`. -/
def lt2pow (a b : Nat) (t : Int) : Bool :=
  if 0 ≤ t then a < b * 2 ^ t.toNat else a * 2 ^ (-t).toNat < b

/-- Half-to-even choice of the rounded significand, from the scaled
quotient `n`, remainder `rem` and scaled denominator `bp`. -/
def rneSig (n rem bp : Nat) : Nat :=
  if 2 * rem < bp then n
  else if bp < 2 * rem then n + 1
  else if n % 2 = 0 then n else n + 1

/-- Round the ratio `a / b` (with `b ≥ 1`) to the nearest binary64 value,
ties to even significand: locate the exponent window `[2^e0, 2^(e0+1))`,
scale the ratio to `[2^52, 2^53)`, and round the scaled significand
half-to-even.  This is the IEEE-754 rounding every CPython float
operation below performs on its exact result. -/
def rneNatRatio (a b : Nat) : Dyadic :=
  let t : Int := (natLog2 a : Int) - (natLog2 b : Int)
  let e0 := if lt2pow a b t then t - 1 else t
  let scale := e0 - 52
  let ap := if 0 ≤ scale then a else a * 2 ^ (-scale).toNat
  let bp := if 0 ≤ scale then b * 2 ^ scale.toNat else b
  ⟨rneSig (ap / bp) (ap % bp) bp, scale⟩

/-- Python `float(n)` for a non-negative int: exact below `2^53`, rounded
to nearest even above. -/
def pyFloat (n : Nat) : Dyadic := rneNatRatio n 1

/-- Binary64 division `x / y`: round the exact quotient.  The power-of-two
exponent offset commutes exactly with the rounding. -/
def divF (x y : Dyadic) : Dyadic :=
  let d := rneNatRatio x.m y.m
  ⟨d.m, d.exp + x.exp - y.exp⟩

/-- Binary64 multiplication `x * y`: round the exact product. -/
def mulF (x y : Dyadic) : Dyadic :=
  let d := rneNatRatio (x.m * y.m) 1
  ⟨d.m, d.exp + x.exp + y.exp⟩

/-- Python `int(x)` for a non-negative float: truncation. -/
def truncF (x : Dyadic) : Nat :=
  if 0 ≤ x.exp then x.m * 2 ^ x.exp.toNat else x.m / 2 ^ (-x.exp).toNat

/-- The percentage computed by `_calculate_compliance` (lines 646-647):
`int(float(sc) / total * 100)` with every operation in binary64 -- the
int-to-float conversions, the division, and the multiplication by 100
each round to nearest even, and `int` truncates. -/
def floatPct (sc total : Nat) : Nat :=
  truncF (mulF (divF (pyFloat sc) (pyFloat total)) (pyFloat 100))

/-- `_calculate_compliance` (lines 636-650): `None` when no checks were
counted, otherwise the binary64-evaluated truncated percentage formatted
as `"<n>%"`. -/
def calculateCompliance {α : Type} (results : List (String × List α)) : Option String :=
  let success := (dgetD results "Success" []).length
  let failure := (dgetD results "Failure" []).length
  let control := (dgetD results "Controlled" []).length
  let total := success + failure + control
  if total ≠ 0 then
    some (toString (floatPct (success + control) total) ++ "%")
  else
    none

/-- The profile-key match of `_run_audit` (lines 250-263): a config path
matches a loaded key when every slash-segment of the config agrees with
the corresponding slash-segment of the key (extension stripped); a config
equal to the bare separator matches unconditionally.  The source loop sets
`matches = False` without breaking, i.e. checks every position. -/
def profileMatch (config key : String) : Bool :=
  let keyPath := splitChars [pathSep] (stripYamlChars key.data)
  if config = "/" then true
  else
    (splitChars [pathSep] config.data).enum.all fun ip =>
      decide (ip.1 < keyPath.length) && (keyPath.get? ip.1 == some ip.2)

/-- Python `to_run.add(key)` on a set, modelled as an insertion-ordered
list without duplicates (only membership and content matter downstream;
CPython set iteration order is arbitrary). -/
def insertNew (s : List String) (k : String) : List String :=
  if k ∈ s then s else s ++ [k]

/-- One iteration of the selection loop of `_run_audit` (lines 251-269):
add every matching key to the running set; when nothing matched, append
the `Errors` entry for this request and continue. -/
def selectStep (loadedKeys : List String) (acc : List String × List (String × ErrInfo))
    (config : String) : List String × List (String × ErrInfo) :=
  let matched := loadedKeys.filter (fun k => profileMatch config k)
  let toRun := matched.foldl insertNew acc.1
  if matched.isEmpty then
    (toRun, acc.2 ++ [(config, ⟨"No matching profiles found for " ++ config, none⟩)])
  else
    (toRun, acc.2)

/-- Profile selection of `_run_audit` (lines 249-269): returns the set of
matched keys and the `Errors` entries for requests that matched nothing.
Processing continues after an unmatched request. -/
def selectProfiles (loadedKeys : List String) (configs : List String) :
    List String × List (String × ErrInfo) :=
  configs.foldl (selectStep loadedKeys) ([], [])

/-- The outcome of calling one audit module with `(data_list, tags,
**kwargs)` (`_run_audit`, lines 284-307): it raises (carrying the
traceback lines of `traceback.format_exc().splitlines()`), returns a
non-dictionary value (carried as its repr), or returns a result
dictionary of outcome classes. -/
inductive ModuleRet where
  | raises (tb : List String)
  | badReturn (v : String)
  | returns (env : List (String × List Entry))
  deriving Repr, DecidableEq

/-- Python `traceback.format_exc().splitlines()[-1]`, the fault's final
message line (`format_exc` is never empty, so the default is unreachable). -/
def lastLine (tb : List String) : String := tb.getLastD ""

/-- One iteration of the module loop of `_run_audit` (lines 284-307):
record an `Errors` entry and continue on a raise or a bad return type,
otherwise merge every class of the returned dictionary by list-extension. -/
def runOneModule (res : Results) (m : String × ModuleRet) : Results :=
  match m.2 with
  | .raises tb =>
      { res with errors := res.errors ++ [(m.1, ⟨"exception occurred", some (lastLine tb)⟩)] }
  | .badReturn v =>
      { res with errors := res.errors ++ [(m.1, ⟨"bad return type", some v⟩)] }
  | .returns env =>
      { res with classes := env.foldl (fun c kv => extendAt c kv.1 kv.2) res.classes }

/-- The full module loop of `_run_audit`, over the loaded modules in
iteration order. -/
def runModules (mods : List (String × ModuleRet)) (res : Results) : Results :=
  mods.foldl runOneModule res

/-- The `Errors` entry (if any) that the module loop records for one
module outcome. -/
def errOf : String × ModuleRet → Option (String × ErrInfo)
  | (n, .raises tb) => some (n, ⟨"exception occurred", some (lastLine tb)⟩)
  | (n, .badReturn v) => some (n, ⟨"bad return type", some v⟩)
  | (_, .returns _) => none

/-- A normalized compensating-control override: the dictionary stored in
`processed_controls[tag]`, read back only through `.get('reason')`. -/
structure CtrlSpec where
  reason : Option String := none
  deriving Repr, DecidableEq

/-- The value attached to one tag inside a `control:` mapping entry:
either a bare reason string or a dictionary. -/
inductive ControlData where
  | str (reason : String)
  | dict (spec : CtrlSpec)
  deriving Repr, DecidableEq

/-- One element of a profile's `control:` list: a bare tag string or a
mapping from tags to `ControlData` (`_run_audit`, lines 311-321). -/
inductive ControlDecl where
  | str (tag : String)
  | dict (pairs : List (String × ControlData))
  deriving Repr, DecidableEq

/-- A loaded profile document, as far as the dispatcher inspects it: only
its `control` section; the checks inside are opaque to the core and are
interpreted by the audit modules. -/
structure ProfileData where
  control : List ControlDecl := []
  deriving Repr, DecidableEq

/-- Building `processed_controls` (`_run_audit`, lines 309-321): a bare
string registers an empty override, a string-valued mapping entry
registers `reason`, a dictionary-valued one is registered verbatim.
Later declarations overwrite earlier ones for the same tag. -/
def processControls (dataList : List (String × ProfileData)) : List (String × CtrlSpec) :=
  dataList.foldl
    (fun pc pd =>
      pd.2.control.foldl
        (fun pc c =>
          match c with
          | .str tag => dset pc tag ⟨none⟩
          | .dict pairs =>
              pairs.foldl
                (fun pc tc =>
                  match tc.2 with
                  | .str r => dset pc tc.1 ⟨some r⟩
                  | .dict spec => dset pc tc.1 spec)
                pc)
        pc)
    []

/-- Python `l.pop(i)` (the removal effect on the list). -/
def popAt {α : Type} (l : List α) (i : Nat) : List α := l.take i ++ l.drop (i + 1)

/-- Insertion into an ascending list, the worker of `sortNat`. -/
def insSorted (i : Nat) : List Nat → List Nat
  | [] => [i]
  | j :: js => if i ≤ j then i :: j :: js else j :: insSorted i js

/-- Python `sorted` on a list of indices (insertion sort; stability is
irrelevant on `Nat`). -/
def sortNat (l : List Nat) : List Nat := l.foldr insSorted []

/-- The scan over `results['Failure']` (`_run_audit`, lines 328-338):
collect the indices of failures whose tag has an override, and the copies
-- annotated with `control: reason` -- appended to `Controlled` in scan
order. -/
def controlStep (pc : List (String × CtrlSpec)) (acc : List Nat × List Entry)
    (ie : Nat × Entry) : List Nat × List Entry :=
  match dget pc ie.2.tag with
  | some spec => (acc.1 ++ [ie.1], acc.2 ++ [{ ie.2 with control := some spec.reason }])
  | none => acc

/-- The scan itself, over the enumerated `Failure` list. -/
def controlScan (failures : List Entry) (pc : List (String × CtrlSpec)) :
    List Nat × List Entry :=
  failures.enum.foldl (controlStep pc) ([], [])

/-- `for failure_index in reversed(sorted(set(idxs))) : l.pop(failure_index)`
(`_run_audit`, lines 341-343). -/
def removeDescending {α : Type} (l : List α) (idxs : List Nat) : List α :=
  ((sortNat idxs.dedup).reverse).foldl popAt l

/-- Compensating-control resolution (`_run_audit`, lines 327-343):
annotated copies of the matching failures are appended to `Controlled`
(creating the key at the first append), then the matched indices are
removed from `Failure` in descending order.  When nothing matches, neither
key is touched. -/
def resolveControls (r : Results) (pc : List (String × CtrlSpec)) : Results :=
  let failures := dgetD r.classes "Failure" []
  let scan := controlScan failures pc
  let c1 := if scan.2.isEmpty then r.classes else extendAt r.classes "Controlled" scan.2
  let c2 := if scan.1.isEmpty then c1 else dset c1 "Failure" (removeDescending failures scan.1)
  { r with classes := c2 }

/-- The terminal cleanup of `_run_audit` (lines 345-347): drop every class
whose sequence is empty (the `errors` field drops its key structurally,
since an empty list already stands for the absent key). -/
def dropEmptyClasses (r : Results) : Results :=
  { classes := r.classes.filter (fun kv => !kv.2.isEmpty), errors := r.errors }

/-- An audit module as loaded: a function of `(data_list, tags, **kwargs)`. -/
def ModuleFn : Type :=
  List (String × ProfileData) → String → List (String × String) → ModuleRet

/-- The read-only per-run snapshot of the out-of-scope collaborators:
`__nova__._dict` (loaded modules), `__nova__.__data__` (loaded profiles),
and the `hubblestack:nova:*` configuration defaults. -/
structure Env where
  modules : List (String × ModuleFn)
  data : List (String × ProfileData)
  confVerbose : Bool := false
  confShowSuccess : Bool := true
  confShowCompliance : Bool := true
  confNovaKwargs : List (String × String) := []

/-- `_run_audit` (lines 245-349) end to end: select profiles, run every
loaded module, merge, resolve compensating controls, drop empty classes.
Selected keys always exist in `env.data`, so the `dgetD` default is
unreachable. -/
def runAuditFn (env : Env) (configs : List String) (tags : String)
    (kwargs : List (String × String)) : Results :=
  let sel := selectProfiles (env.data.map (fun kv => kv.1)) configs
  let dataList := sel.1.map (fun key => (lastSegment key, dgetD env.data key ⟨[]⟩))
  let outcomes := env.modules.map (fun m => (m.1, m.2 dataList tags kwargs))
  let r1 := runModules outcomes { classes := [], errors := sel.2 }
  dropEmptyClasses (resolveControls r1 (processControls dataList))

/-- One element of a displayed class list: `kv tag v` is the terse
single-key map from `tag` to a description or control reason, `full tag e`
is the verbose single-key map from `tag` to the whole entry. -/
inductive Rendered where
  | kv (tag : String) (value : Option String)
  | full (tag : String) (entry : Entry)
  deriving Repr, DecidableEq

/-- The terse rendering of a `Failure`/`Success` list (`audit`,
lines 159-177): one `tag -> description` map per first occurrence of a
(tag, description) pair, in scan order (the source's `set` of seen pairs
is an insertion-ordered list here; only membership is used). -/
def terseStep (acc : List Rendered × List (String × Option String)) (e : Entry) :
    List Rendered × List (String × Option String) :=
  if (e.tag, e.description) ∈ acc.2 then acc
  else (acc.1 ++ [Rendered.kv e.tag e.description], acc.2 ++ [(e.tag, e.description)])

/-- The deduplicating fold itself, started from empty output and empty
seen-set. -/
def terseDedup (entries : List Entry) : List Rendered :=
  (entries.foldl terseStep (([] : List Rendered), ([] : List (String × Option String)))).1

/-- Python `tag_data.get('control', '')` (`audit`, line 184): the empty
string when the key is absent, the stored value (possibly `None`) when
present. -/
def controlValue (e : Entry) : Option String := e.control.getD (some "")

/-- The terse rendering of the `Controlled` list (`audit`, lines 179-188):
`tag -> control_reason` maps, deduplicated by (tag, description, reason). -/
def terseControlled (entries : List Entry) : List Rendered :=
  (entries.foldl
    (fun acc e =>
      if (e.tag, e.description, controlValue e) ∈ acc.2 then acc
      else (acc.1 ++ [Rendered.kv e.tag (controlValue e)],
            acc.2 ++ [(e.tag, e.description, controlValue e)]))
    (([] : List Rendered), ([] : List (String × Option String × Option String)))).1

/-- The verbose rendering of a class list (`audit`, lines 202-223): every
entry kept, as a `tag -> entry` map; no deduplication. -/
def verboseList (entries : List Entry) : List Rendered :=
  entries.map (fun e => Rendered.full e.tag e)

/-- The dictionary returned by `audit`/`top`, with the non-class keys as
fields: `Compliance`, `Messages` and the `Errors` list are modelled
separately (`none`/`[]` standing for the absent key, exactly the condition
under which the source leaves the key unset). -/
structure OutMap where
  classes : List (String × List Rendered) := []
  compliance : Option String := none
  messages : Option String := none
  errors : List (String × ErrInfo) := []
  deriving Repr, DecidableEq

/-- The terse result dictionary as first built by `audit`
(lines 155-188), before compliance is computed and before any key is
popped: always carrying all three class keys. -/
def terseView (ret : Results) : List (String × List Rendered) :=
  [("Failure", terseDedup (dgetD ret.classes "Failure" [])),
   ("Success", terseDedup (dgetD ret.classes "Success" [])),
   ("Controlled", terseControlled (dgetD ret.classes "Controlled" []))]

/-- The terse result dictionary of `audit` after the pops
(lines 196-200): `Success` is popped when `show_success` is false and
`Controlled` when empty, while `Failure` -- and a shown empty `Success` --
can remain as empty lists. -/
def renderTerse (ret : Results) (show_success : Bool) : List (String × List Rendered) :=
  let terse0 := terseView ret
  let terse1 := if show_success then terse0 else terse0.filter (fun kv => kv.1 ≠ "Success")
  if (dgetD terse1 "Controlled" []).isEmpty then
    terse1.filter (fun kv => kv.1 ≠ "Controlled")
  else terse1

/-- The verbose result dictionary of `audit` (lines 202-226): `Failure`
then `Success` (popped when `show_success` is false), then `Controlled`
(popped when empty). -/
def renderVerbose (ret : Results) (show_success : Bool) : List (String × List Rendered) :=
  let v1 := [("Failure", verboseList (dgetD ret.classes "Failure" [])),
             ("Success", verboseList (dgetD ret.classes "Success" []))]
  let v2 := if show_success then v1 else v1.filter (fun kv => kv.1 ≠ "Success")
  let v3 := v2 ++ [("Controlled", verboseList (dgetD ret.classes "Controlled" []))]
  if (dgetD v3 "Controlled" []).isEmpty then
    v3.filter (fun kv => kv.1 ≠ "Controlled")
  else v3

/-- The presentation step of `audit` (lines 190-243): compliance is
computed from the pre-pop terse dictionary whenever `show_compliance`
(also for the verbose view); `Messages` is attached only when the call
did not come from `top` and the dictionary (including an attached
`Compliance`) is empty; accumulated errors are always carried over. -/
def renderAudit (ret : Results)
    (verbose show_success show_compliance called_from_top : Bool) : OutMap :=
  let compliance := if show_compliance then calculateCompliance (terseView ret) else none
  let classes :=
    if verbose then renderVerbose ret show_success else renderTerse ret show_success
  let messages :=
    if !called_from_top && classes.isEmpty && compliance.isNone then
      some "No audits matched this host in the specified profiles."
    else none
  { classes := classes, compliance := compliance, messages := messages, errors := ret.errors }

/-- The `nova_kwargs` merge of `audit` (lines 142-149): start from the
configured bag, then overlay the caller's keyword arguments. -/
def mergeKwargs (env : Env) (kwargs : List (String × String)) : List (String × String) :=
  kwargs.foldl (fun d kv => dset d kv.1 kv.2)
    (env.confNovaKwargs.foldl (fun d kv => dset d kv.1 kv.2) [])

/-- The `configs is not None` path of `audit` (lines 115-243): resolve the
display flags against the configuration defaults, normalize the configs to
paths, run `_run_audit`, and render.  `load()`/autoload only refreshes the
snapshot and `debug` only gates logging, so neither affects the value. -/
def auditWithConfigs (env : Env) (configs : List String) (tags : String)
    (verbose show_success show_compliance : Option Bool) (called_from_top : Bool)
    (kwargs : List (String × String)) : OutMap :=
  let v := verbose.getD env.confVerbose
  let ss := show_success.getD env.confShowSuccess
  let sc := show_compliance.getD env.confShowCompliance
  let ret := runAuditFn env (configs.map configToPath) tags (mergeKwargs env kwargs)
  renderAudit ret v ss sc called_from_top

/-- The result of a call to `audit` or `top`: either the
`(False, 'No nova modules/data have been loaded.')` early return when the
loader is empty, or the result dictionary. -/
inductive CallResult where
  | notLoaded
  | out (o : OutMap)
  deriving Repr, DecidableEq

/-- Class dictionary of a call result (empty for the early failure). -/
def callClasses : CallResult → List (String × List Rendered)
  | .notLoaded => []
  | .out o => o.classes

/-- Compliance value of a call result. -/
def callCompliance : CallResult → Option String
  | .notLoaded => none
  | .out o => o.compliance

/-- Messages value of a call result. -/
def callMessages : CallResult → Option String
  | .notLoaded => none
  | .out o => o.messages

/-- One entry of the parsed, host-filtered topfile content (the list
`_get_top_data` returns): a bare profile request, a mapping from requests
to tag filters, or a malformed element (carried as its repr). -/
inductive TopEntry where
  | str (s : String)
  | dict (pairs : List (String × String))
  | malformed (shown : String)

/-- The error message recorded for a malformed topfile entry
(`top`, lines 468-469), with the offending value's repr interpolated. -/
def topfileErrorLog (shown : String) : String :=
  "topfile malformed, list entries must be strings or dicts: " ++ shown

/-- Grouping of topfile entries by tag filter (`top`, lines 454-472):
bare strings group under `*`; mapping entries group each request under its
tag; a malformed entry records an error keyed by the topfile path
(assignment into a dictionary, so a later malformed entry overwrites an
earlier one) and is skipped.  In the source a run with both a malformed
entry and module/selection errors would crash on `Errors` (a dict there,
a list from `audit`); that unreachable-by-claim mixing is modelled as the
single `errors` list. -/
def dataByTag (topfile : String) (topData : List TopEntry) :
    List (String × List String) × List (String × ErrInfo) :=
  topData.foldl
    (fun acc d =>
      match d with
      | .str s => (extendAt acc.1 "*" [s], acc.2)
      | .dict pairs => (pairs.foldl (fun m kv => extendAt m kv.2 [kv.1]) acc.1, acc.2)
      | .malformed shown => (acc.1, dset acc.2 topfile ⟨topfileErrorLog shown, none⟩))
    ([], [])

/-- The per-group audit calls and result merge of `top` (lines 477-490):
each tag group is audited with `show_success=True`, `show_compliance=False`
and `called_from_top=True`, and every returned key is merged by
list-extension. -/
def topMerged (env : Env) (topfile : String) (topData : List TopEntry) (verbose : Bool) :
    List (String × List Rendered) × List (String × ErrInfo) :=
  (dataByTag topfile topData).1.foldl
    (fun acc g =>
      let a := auditWithConfigs env g.2 g.1 (some verbose) (some true) (some false) true []
      (a.classes.foldl (fun c kv => extendAt c kv.1 kv.2) acc.1, acc.2 ++ a.errors))
    ([], (dataByTag topfile topData).2)

/-- The tail of `top` (lines 492-507): attach `Compliance` when requested
and non-`None` (computed from the merged, pre-drop dictionary), drop empty
classes, attach the no-match `Messages` entry when the dictionary is then
empty, and finally pop `Success` when `show_success` is false. -/
def topFinalize (merged : List (String × List Rendered) × List (String × ErrInfo))
    (show_compliance show_success : Bool) : OutMap :=
  let compliance := if show_compliance then calculateCompliance merged.1 else none
  let classes1 := merged.1.filter (fun kv => !kv.2.isEmpty)
  let messages :=
    if classes1.isEmpty && merged.2.isEmpty && compliance.isNone then
      some "No audits matched this host in the specified profiles."
    else none
  let classes2 := if show_success then classes1 else classes1.filter (fun kv => kv.1 ≠ "Success")
  { classes := classes2, compliance := compliance, messages := messages, errors := merged.2 }

/-- `top` (lines 352-507): fail when nothing is loaded, group the
host-applicable topfile entries by tag filter, return the (possibly
empty) early result when no group was formed, otherwise audit every group,
merge and finalize. -/
def topFn (env : Env) (topfile : String) (topData : List TopEntry)
    (verbose show_success show_compliance : Option Bool) : CallResult :=
  if env.modules.isEmpty then .notLoaded
  else
    let v := verbose.getD env.confVerbose
    let ss := show_success.getD env.confShowSuccess
    let sc := show_compliance.getD env.confShowCompliance
    let groups := dataByTag topfile topData
    if groups.1.isEmpty then .out { classes := [], errors := groups.2 }
    else .out (topFinalize (topMerged env topfile topData v) sc ss)

/-- The `audit` entry point (lines 41-243).  With `configs` absent it
delegates to `top` on the default topfile, forwarding only `verbose`,
`show_success` and `show_compliance` (line 110-113); otherwise it checks
the loader and runs the config pipeline with `called_from_top` false.
`topData` is the parsed content of the default topfile `top.nova`; the
comma-splitting of a string-valued `configs` argument is pre-applied. -/
def auditFn (env : Env) (topData : List TopEntry)
    (configs : Option (List String)) (tags : String)
    (verbose show_success show_compliance : Option Bool)
    (_debug : Option Bool) (kwargs : List (String × String)) : CallResult :=
  match configs with
  | none => topFn env "top.nova" topData verbose show_success show_compliance
  | some cs =>
      if env.modules.isEmpty then .notLoaded
      else .out (auditWithConfigs env cs tags verbose show_success show_compliance false kwargs)

/-! ### Dictionary lemmas -/

theorem dget_dset_self {α : Type} (d : List (String × α)) (k : String) (v : α) :
    dget (dset d k v) k = some v := by
  induction d with
  | nil => simp [dget, dset]
  | cons kv rest ih =>
      by_cases h : kv.1 = k
      · simp [dset, h, dget]
      · simp [dset, h, dget, ih]

theorem dget_dset_ne {α : Type} (d : List (String × α)) (k k' : String) (v : α)
    (h : k' ≠ k) : dget (dset d k v) k' = dget d k' := by
  have hkk : ¬(k = k') := fun hh => h hh.symm
  induction d with
  | nil => simp [dget, dset, hkk]
  | cons kv rest ih =>
      by_cases hk : kv.1 = k
      · simp [dset, hk, dget, hkk]
      · simp [dset, hk, dget, ih]

theorem dgetD_extendAt_self {α : Type} (d : List (String × List α)) (k : String)
    (vs : List α) : dgetD (extendAt d k vs) k [] = dgetD d k [] ++ vs := by
  simp [extendAt, dgetD, dget_dset_self]

theorem dgetD_extendAt_ne {α : Type} (d : List (String × List α)) (k k' : String)
    (vs : List α) (h : k' ≠ k) : dgetD (extendAt d k vs) k' [] = dgetD d k' [] := by
  simp [extendAt, dgetD, dget_dset_ne _ _ _ _ h]

theorem dget_mem {α : Type} {d : List (String × α)} {k : String} {v : α}
    (h : dget d k = some v) : (k, v) ∈ d := by
  induction d with
  | nil => simp [dget] at h
  | cons kv rest ih =>
      obtain ⟨a, b⟩ := kv
      by_cases hk : a = k
      · simp only [dget, hk, if_pos, Option.some.injEq] at h
        simp [hk, h]
      · simp only [dget, hk, if_neg, ite_false, if_false] at h
        exact List.mem_cons_of_mem _ (ih h)

/-! ### C3: compliance formula -/

/-- The compliance formula in the words of the claim (and of §3 of the
spec): `round((Success+Controlled)/(Success+Failure+Controlled) * 100)`
formatted as a percentage string, `None` when the denominator is zero. -/
def complianceRoundSpec (success failure controlled : Nat) : Option String :=
  if success + failure + controlled = 0 then none
  else
    some (toString (round
      (((success + controlled : Nat) : ℚ) / ((success + failure + controlled : Nat) : ℚ) * 100)) ++ "%")

/-- C3 counterexample: with 2 successes and 1 failure the source computes
`int((2/3)*100) = 66` and returns `"66%"`, while the claim's
`round((2/3)*100) = 67` demands `"67%"`. -/
theorem C3_compliance_counterexample :
    calculateCompliance
        [("Success", [Entry.mk "T1" (some "D") none, Entry.mk "T2" (some "D") none]),
         ("Failure", [Entry.mk "T3" (some "E") none])] = some "66%" ∧
    complianceRoundSpec 2 1 0 = some "67%" ∧
    calculateCompliance
        [("Success", [Entry.mk "T1" (some "D") none, Entry.mk "T2" (some "D") none]),
         ("Failure", [Entry.mk "T3" (some "E") none])] ≠ complianceRoundSpec 2 1 0 := by
  have hround : round (((2 + 0 : Nat) : ℚ) / ((2 + 1 + 0 : Nat) : ℚ) * 100) = 67 := by
    norm_num [round_eq]
  have hspec : complianceRoundSpec 2 1 0 = some "67%" := by
    rw [complianceRoundSpec, if_neg (by decide), hround]
    rfl
  refine ⟨by decide, hspec, ?_⟩
  rw [hspec]
  decide


theorem log2go_le (f : Nat) : ∀ n : Nat, n ≤ f → 1 ≤ n → 2 ^ log2go f n ≤ n := by
  induction f with
  | zero => intro n hf hn; omega
  | succ f ih =>
      intro n hf hn
      rw [log2go]
      by_cases h2 : n < 2
      · simp only [h2, if_true]
        simpa using hn
      · simp only [h2, if_false, ite_false]
        have hdiv : n / 2 ≤ f := by omega
        have hdiv1 : 1 ≤ n / 2 := by omega
        have := ih (n / 2) hdiv hdiv1
        calc 2 ^ (log2go f (n / 2) + 1) = 2 * 2 ^ log2go f (n / 2) := by ring
          _ ≤ 2 * (n / 2) := by omega
          _ ≤ n := by omega

theorem natLog2_le (n : Nat) (h : 1 ≤ n) : 2 ^ natLog2 n ≤ n :=
  log2go_le n n (Nat.le_refl n) h

theorem rneSig_pos (n rem bp : Nat) (h : 1 ≤ n) : 1 ≤ rneSig n rem bp := by
  rw [rneSig]
  split
  · omega
  · split
    · omega
    · split <;> omega

theorem rneSig_exact (n bp : Nat) (h : 0 < bp) : rneSig n 0 bp = n := by
  rw [rneSig, if_pos (by omega)]

theorem rneNatRatio_one_m_pos (n : Nat) (h : 1 ≤ n) : 1 ≤ (rneNatRatio n 1).m := by
  have hle : 2 ^ natLog2 n ≤ n := natLog2_le n h
  have h1 : natLog2 1 = 0 := rfl
  simp only [rneNatRatio, h1, Nat.cast_zero, sub_zero]
  have hlt : lt2pow n 1 (natLog2 n : Int) = false := by
    simp only [lt2pow]
    rw [if_pos (Int.natCast_nonneg _)]
    simp only [one_mul, Int.toNat_natCast, decide_eq_false_iff_not, not_lt]
    exact hle
  rw [hlt]
  simp only [Bool.false_eq_true, if_false, ite_false]
  by_cases hs : (0 : Int) ≤ (natLog2 n : Int) - 52
  · rw [if_pos hs, if_pos hs]
    apply rneSig_pos
    have htn : ((natLog2 n : Int) - 52).toNat = natLog2 n - 52 := by omega
    rw [htn]
    have hb : (0 : Nat) < 1 * 2 ^ (natLog2 n - 52) := by positivity
    have hle2 : 1 * 2 ^ (natLog2 n - 52) ≤ n := by
      rw [one_mul]
      calc (2:Nat) ^ (natLog2 n - 52) ≤ 2 ^ natLog2 n :=
            Nat.pow_le_pow_right (by omega) (by omega)
        _ ≤ n := hle
    exact (Nat.one_le_div_iff hb).mpr hle2
  · rw [if_neg hs, if_neg hs]
    apply rneSig_pos
    have hap : 1 ≤ n * 2 ^ (-((natLog2 n : Int) - 52)).toNat := by
      have h2 := Nat.one_le_two_pow (n := (-((natLog2 n : Int) - 52)).toNat)
      calc 1 = 1 * 1 := rfl
        _ ≤ n * 2 ^ (-((natLog2 n : Int) - 52)).toNat := Nat.mul_le_mul h h2
    rw [Nat.div_one]
    exact hap

theorem rneNatRatio_self (m : Nat) (h : 1 ≤ m) :
    rneNatRatio m m = ⟨4503599627370496, -52⟩ := by
  have hm : m ≠ 0 := by omega
  simp only [rneNatRatio, sub_self]
  have hlt : lt2pow m m 0 = false := by
    simp [lt2pow]
  rw [hlt]
  simp only [Bool.false_eq_true, if_false, ite_false]
  have hs : ¬ (0 : Int) ≤ 0 - 52 := by omega
  rw [if_neg hs, if_neg hs]
  have ht : (-(0 - 52 : Int)).toNat = 52 := by omega
  rw [ht]
  have hdiv : m * 2 ^ 52 / m = 2 ^ 52 := Nat.mul_div_cancel_left _ (by omega)
  have hmod : m * 2 ^ 52 % m = 0 := Nat.mul_mod_right m _
  rw [hdiv, hmod, rneSig_exact _ _ (by omega)]
  norm_num

theorem divF_self (x : Dyadic) (h : 1 ≤ x.m) : divF x x = ⟨4503599627370496, -52⟩ := by
  rw [divF, rneNatRatio_self x.m h]
  simp

theorem floatPct_self (n : Nat) (h : 1 ≤ n) : floatPct n n = 100 := by
  rw [floatPct, divF_self (pyFloat n) (rneNatRatio_one_m_pos n h)]
  decide

theorem rneNatRatio_zero_m (b : Nat) (hb : 1 ≤ b) : (rneNatRatio 0 b).m = 0 := by
  have h0 : natLog2 0 = 0 := rfl
  simp only [rneNatRatio, h0, Nat.cast_zero, zero_sub]
  have hlt : lt2pow 0 b (-(natLog2 b : Int)) = true := by
    simp only [lt2pow]
    split
    · simp only [decide_eq_true_eq]
      exact Nat.mul_pos (by omega) (Nat.two_pow_pos _)
    · simp only [Nat.zero_mul, decide_eq_true_eq]
      omega
  rw [hlt]
  simp only [if_true]
  have hs : ¬ (0 : Int) ≤ -(natLog2 b : Int) - 1 - 52 := by
    have := Int.natCast_nonneg (natLog2 b)
    omega
  rw [if_neg hs, if_neg hs]
  simp only [Nat.zero_mul, Nat.zero_div, Nat.zero_mod]
  rw [rneSig_exact _ _ (by omega)]

theorem divF_m (x y : Dyadic) : (divF x y).m = (rneNatRatio x.m y.m).m := rfl

theorem mulF_m (x y : Dyadic) : (mulF x y).m = (rneNatRatio (x.m * y.m) 1).m := rfl

theorem truncF_of_m_zero (x : Dyadic) (h : x.m = 0) : truncF x = 0 := by
  rw [truncF]
  split <;> simp [h]

theorem floatPct_zero (total : Nat) (h : 1 ≤ total) : floatPct 0 total = 0 := by
  have h0 : (pyFloat 0).m = 0 := rneNatRatio_zero_m 1 (by omega)
  have hdiv : (divF (pyFloat 0) (pyFloat total)).m = 0 := by
    rw [divF_m, h0]
    exact rneNatRatio_zero_m _ (rneNatRatio_one_m_pos total h)
  have hmul : (mulF (divF (pyFloat 0) (pyFloat total)) (pyFloat 100)).m = 0 := by
    rw [mulF_m, hdiv, Nat.zero_mul]
    exact rneNatRatio_zero_m 1 (by omega)
  rw [floatPct]
  exact truncF_of_m_zero _ hmul

/-- C3 (amended): `_calculate_compliance` returns `None` exactly when
`Success+Failure+Controlled` is zero, and otherwise the percentage string
`"<n>%"` with `n = int(float(Success+Controlled)/total * 100)` evaluated
in binary64 arithmetic -- a truncation, not the claimed `round`.
Consequences proven: full compliance always yields `100` and zero
compliance always `0`; the truncation differs from `round` (66, not 67,
at 2 successes / 1 failure), and float rounding can even undercut the
exact floor (28 at 29 successes / 71 failures, where the exact floor of
`29 * 100 / 100` is 29). -/
theorem C3_compliance_float :
    (∀ (α : Type) (d : List (String × List α)),
        calculateCompliance d =
          (let s := (dgetD d "Success" []).length
           let f := (dgetD d "Failure" []).length
           let c := (dgetD d "Controlled" []).length
           if s + f + c = 0 then none
           else some (toString (floatPct (s + c) (s + f + c)) ++ "%"))) ∧
    (∀ n : Nat, 1 ≤ n → floatPct n n = 100) ∧
    (∀ n : Nat, 1 ≤ n → floatPct 0 n = 0) ∧
    (floatPct 2 3 = 66 ∧ round (((2 : ℚ) / 3) * 100) = 67) ∧
    (floatPct 29 100 = 28 ∧ (29 * 100) / 100 = 29) := by
  refine ⟨?_, floatPct_self, floatPct_zero,
    ⟨by decide, by norm_num [round_eq]⟩, ⟨by decide, by decide⟩⟩
  intro α d
  by_cases h : (dgetD d "Success" []).length + (dgetD d "Failure" []).length +
      (dgetD d "Controlled" []).length = 0
  · simp [calculateCompliance, h]
  · simp [calculateCompliance, h]

/-- Witness for C3 (amended): the hypotheses of the full-compliance and
zero-compliance conjuncts discharged at four checks. -/
theorem C3_compliance_float_witness :
    ((1 : Nat) ≤ 4 ∧ floatPct 4 4 = 100) ∧ ((1 : Nat) ≤ 4 ∧ floatPct 0 4 = 0) :=
  ⟨⟨by decide, C3_compliance_float.2.1 4 (by decide)⟩,
   ⟨by decide, C3_compliance_float.2.2.1 4 (by decide)⟩⟩

/-! ### C1: compensating-control resolution -/


theorem controlScan_go (pc : List (String × CtrlSpec)) (l : List (Nat × Entry))
    (a : List Nat) (b : List Entry) :
    l.foldl (controlStep pc) (a, b) =
      (a ++ (l.filter (fun ie => (dget pc ie.2.tag).isSome)).map Prod.fst,
       b ++ l.filterMap (fun ie => (dget pc ie.2.tag).map
         (fun spec => { ie.2 with control := some spec.reason }))) := by
  induction l generalizing a b with
  | nil => simp
  | cons x xs ih =>
      simp only [List.foldl_cons, List.filter_cons, List.filterMap_cons]
      cases h : dget pc x.2.tag with
      | none => simp [controlStep, h, ih]
      | some spec => simp [controlStep, h, ih]

theorem controlScan_fst (failures : List Entry) (pc : List (String × CtrlSpec)) :
    (controlScan failures pc).1 =
      (failures.enum.filter (fun ie => (dget pc ie.2.tag).isSome)).map Prod.fst := by
  rw [controlScan, controlScan_go]
  rfl

theorem controlScan_snd (failures : List Entry) (pc : List (String × CtrlSpec)) :
    (controlScan failures pc).2 =
      failures.filterMap (fun e => (dget pc e.tag).map
        (fun spec => { e with control := some spec.reason })) := by
  rw [controlScan, controlScan_go]
  show [] ++ _ = _
  rw [List.nil_append]
  conv_rhs => rw [← List.enum_map_snd failures]
  rw [List.filterMap_map]
  rfl

theorem matched_shift {α : Type} (p : α → Bool) (l : List α) (n : Nat) :
    ((List.enumFrom (n + 1) l).filter (fun ie => p ie.2)).map Prod.fst =
      (((List.enumFrom n l).filter (fun ie => p ie.2)).map Prod.fst).map (· + 1) := by
  induction l generalizing n with
  | nil => rfl
  | cons x xs ih =>
      by_cases hx : p x <;>
        simp [List.enumFrom, List.filter_cons, hx, ih]

theorem foldl_popAt_shift {α : Type} (D : List Nat) (x : α) (xs : List α) :
    (D.map (· + 1)).foldl popAt (x :: xs) = x :: D.foldl popAt xs := by
  induction D generalizing xs with
  | nil => rfl
  | cons d ds ih =>
      simp only [List.map_cons, List.foldl_cons]
      have hpop : popAt (x :: xs) (d + 1) = x :: popAt xs d := by
        simp [popAt]
      rw [hpop, ih]

theorem foldl_popAt_rev {α : Type} (p : α → Bool) (l : List α) :
    ((l.enum.filter (fun ie => p ie.2)).map Prod.fst).reverse.foldl popAt l =
      l.filter (fun a => !p a) := by
  induction l with
  | nil => rfl
  | cons x xs ih =>
      have hidx : ((x :: xs).enum.filter (fun ie => p ie.2)).map Prod.fst =
          (if p x then [0] else []) ++
            ((xs.enum.filter (fun ie => p ie.2)).map Prod.fst).map (· + 1) := by
        show ((((0, x) :: List.enumFrom 1 xs).filter (fun ie => p ie.2)).map Prod.fst) = _
        rw [List.filter_cons]
        by_cases hx : p x <;>
          simp [hx, matched_shift p xs 0, List.enum]
      have hrm : ((((xs.enum.filter (fun ie => p ie.2)).map Prod.fst).map (· + 1)).reverse) =
          ((xs.enum.filter (fun ie => p ie.2)).map Prod.fst).reverse.map (· + 1) := by
        simp
      rw [hidx]
      by_cases hx : p x
      · rw [if_pos hx, List.reverse_append, hrm, List.foldl_append,
          foldl_popAt_shift, ih]
        simp [List.filter_cons, hx, popAt]
      · rw [if_neg hx, List.reverse_append, hrm]
        simp only [List.reverse_nil, List.append_nil]
        rw [foldl_popAt_shift, ih]
        simp [List.filter_cons, hx]

theorem matched_pairwise_lt {α : Type} (p : α → Bool) (l : List α) :
    ((l.enum.filter (fun ie => p ie.2)).map Prod.fst).Pairwise (· < ·) := by
  have h1 : List.Sublist ((l.enum.filter (fun ie => p ie.2)).map Prod.fst)
      (l.enum.map Prod.fst) := (List.filter_sublist _).map Prod.fst
  rw [List.enum_map_fst] at h1
  exact (List.pairwise_lt_range _).sublist h1

theorem insSorted_of_le (i : Nat) (l : List Nat) (h : ∀ j ∈ l, i ≤ j) :
    insSorted i l = i :: l := by
  cases l with
  | nil => rfl
  | cons j js => simp [insSorted, h j (by simp)]

theorem sortNat_of_pairwise_le (l : List Nat) (h : l.Pairwise (· ≤ ·)) : sortNat l = l := by
  induction l with
  | nil => rfl
  | cons x xs ih =>
      rw [List.pairwise_cons] at h
      show insSorted x (sortNat xs) = x :: xs
      rw [ih h.2, insSorted_of_le x xs h.1]

theorem removeDescending_matched {α : Type} (p : α → Bool) (l : List α) :
    removeDescending l ((l.enum.filter (fun ie => p ie.2)).map Prod.fst) =
      l.filter (fun a => !p a) := by
  have hpw := matched_pairwise_lt p l
  rw [removeDescending, List.dedup_eq_self.mpr (hpw.imp Nat.ne_of_lt),
    sortNat_of_pairwise_le _ (hpw.imp Nat.le_of_lt)]
  exact foldl_popAt_rev p l


theorem removeDescending_scan (failures : List Entry) (pc : List (String × CtrlSpec)) :
    removeDescending failures (controlScan failures pc).1 =
      failures.filter (fun e => (dget pc e.tag).isNone) := by
  rw [controlScan_fst]
  have h := removeDescending_matched (fun e : Entry => (dget pc e.tag).isSome) failures
  rw [show (fun a : Entry => !(dget pc a.tag).isSome) =
      (fun e : Entry => (dget pc e.tag).isNone) from ?_] at h
  · exact h
  · funext e
    cases dget pc e.tag <;> rfl

/-- C1: compensating-control resolution is an order-preserving partition
of the `Failure` list.  After `resolveControls`, the `Failure` class holds
exactly the failures whose tag has no override -- in their original
relative order -- and the `Controlled` class holds its previous content
followed by one annotated copy (`control := reason`) of each overridden
failure, in scan order; no entry is in both classes.  This holds for
every result dictionary and every control mapping. -/
theorem C1_control_resolution (r : Results) (pc : List (String × CtrlSpec)) :
    dgetD (resolveControls r pc).classes "Failure" [] =
      (dgetD r.classes "Failure" []).filter (fun e => (dget pc e.tag).isNone) ∧
    dgetD (resolveControls r pc).classes "Controlled" [] =
      dgetD r.classes "Controlled" [] ++
        (dgetD r.classes "Failure" []).filterMap
          (fun e => (dget pc e.tag).map (fun spec => { e with control := some spec.reason })) := by
  by_cases hm : ∀ e ∈ dgetD r.classes "Failure" [], dget pc e.tag = none
  · have hfst : (controlScan (dgetD r.classes "Failure" []) pc).1 = [] := by
      rw [controlScan_fst]
      simp only [List.map_eq_nil_iff, List.filter_eq_nil_iff]
      rintro ⟨i, e⟩ hmem
      have he : e ∈ dgetD r.classes "Failure" [] := by
        have h2 := List.enum_map_snd (dgetD r.classes "Failure" [])
        exact h2 ▸ List.mem_map_of_mem Prod.snd hmem
      simp [hm e he]
    have hsnd : (controlScan (dgetD r.classes "Failure" []) pc).2 = [] := by
      rw [controlScan_snd, List.filterMap_eq_nil_iff]
      intro e he
      simp [hm e he]
    have hfil : (dgetD r.classes "Failure" []).filter (fun e => (dget pc e.tag).isNone) =
        dgetD r.classes "Failure" [] := by
      rw [List.filter_eq_self]
      intro e he
      simp [hm e he]
    have hfm : (dgetD r.classes "Failure" []).filterMap
        (fun e => (dget pc e.tag).map (fun spec => { e with control := some spec.reason })) =
          [] := by
      rw [List.filterMap_eq_nil_iff]
      intro e he
      simp [hm e he]
    rw [resolveControls]
    simp only [hfst, hsnd, List.isEmpty_nil, if_true]
    exact ⟨hfil.symm, by simp [hfm]⟩
  · push_neg at hm
    obtain ⟨e0, he0, hne0⟩ := hm
    obtain ⟨spec0, hs0⟩ := Option.ne_none_iff_exists'.mp hne0
    have hsnd_ne : (controlScan (dgetD r.classes "Failure" []) pc).2.isEmpty = false := by
      rw [controlScan_snd, List.isEmpty_eq_false]
      have hmemf : ({ e0 with control := some spec0.reason } : Entry) ∈
          (dgetD r.classes "Failure" []).filterMap
            (fun e => (dget pc e.tag).map
              (fun spec => { e with control := some spec.reason })) :=
        List.mem_filterMap.mpr ⟨e0, he0, by rw [hs0]; rfl⟩
      exact List.ne_nil_of_mem hmemf
    have hfst_ne : (controlScan (dgetD r.classes "Failure" []) pc).1.isEmpty = false := by
      rw [controlScan_fst, List.isEmpty_eq_false]
      obtain ⟨i, hi⟩ := List.mem_iff_get?.mp he0
      have hmem : (i, e0) ∈ (dgetD r.classes "Failure" []).enum :=
        List.mk_mem_enum_iff_get?.mpr hi
      have hmem2 : (i, e0) ∈ (dgetD r.classes "Failure" []).enum.filter
          (fun ie => (dget pc ie.2.tag).isSome) := by
        rw [List.mem_filter]
        exact ⟨hmem, by simp [hs0]⟩
      exact List.ne_nil_of_mem (List.mem_map_of_mem Prod.fst hmem2)
    rw [resolveControls]
    simp only [hsnd_ne, hfst_ne, Bool.false_eq_true, if_false]
    constructor
    · rw [show dgetD (dset (extendAt r.classes "Controlled"
          (controlScan (dgetD r.classes "Failure" []) pc).2) "Failure"
          (removeDescending (dgetD r.classes "Failure" [])
            (controlScan (dgetD r.classes "Failure" []) pc).1)) "Failure" [] =
          removeDescending (dgetD r.classes "Failure" [])
            (controlScan (dgetD r.classes "Failure" []) pc).1 from by
        simp [dgetD, dget_dset_self]]
      exact removeDescending_scan _ pc
    · rw [show dgetD (dset (extendAt r.classes "Controlled"
          (controlScan (dgetD r.classes "Failure" []) pc).2) "Failure"
          (removeDescending (dgetD r.classes "Failure" [])
            (controlScan (dgetD r.classes "Failure" []) pc).1)) "Controlled" [] =
          dgetD (extendAt r.classes "Controlled"
            (controlScan (dgetD r.classes "Failure" []) pc).2) "Controlled" [] from by
        simp [dgetD, dget_dset_ne _ _ _ _ (by decide : ("Controlled" : String) ≠ "Failure")]]
      rw [dgetD_extendAt_self, controlScan_snd]

/-! ### C2: module-failure isolation -/


theorem runModules_errors (mods : List (String × ModuleRet)) (res : Results) :
    (runModules mods res).errors = res.errors ++ mods.filterMap errOf := by
  induction mods generalizing res with
  | nil => simp [runModules]
  | cons m ms ih =>
      rw [runModules, List.foldl_cons]
      rw [show List.foldl runOneModule (runOneModule res m) ms =
        runModules ms (runOneModule res m) from rfl]
      rw [ih, List.filterMap_cons]
      obtain ⟨n, b⟩ := m
      cases b <;> simp [runOneModule, errOf]

theorem errOf_key (m : String × ModuleRet) (e : String × ErrInfo)
    (h : errOf m = some e) : e.1 = m.1 := by
  obtain ⟨n, b⟩ := m
  cases b with
  | raises tb =>
      simp only [errOf, Option.some.injEq] at h
      rw [← h]
  | badReturn v =>
      simp only [errOf, Option.some.injEq] at h
      rw [← h]
  | returns env => simp [errOf] at h

theorem filter_key_filterMap_nil (ms : List (String × ModuleRet)) (name : String)
    (h : name ∉ ms.map Prod.fst) :
    (ms.filterMap errOf).filter (fun i => i.1 == name) = [] := by
  rw [List.filter_eq_nil_iff]
  intro e he
  obtain ⟨m, hm, hem⟩ := List.mem_filterMap.mp he
  have hkey := errOf_key m e hem
  simp only [beq_iff_eq]
  intro hname
  exact h (hname ▸ hkey ▸ List.mem_map_of_mem Prod.fst hm)

theorem mem_dgetD_extendAt (c : List (String × List Entry)) (k k' : String)
    (vs : List Entry) (e : Entry) (h : e ∈ dgetD c k' []) :
    e ∈ dgetD (extendAt c k vs) k' [] := by
  by_cases hk : k' = k
  · subst hk
    rw [dgetD_extendAt_self]
    exact List.mem_append_left _ h
  · rw [dgetD_extendAt_ne _ _ _ _ hk]
    exact h

theorem mem_foldl_extendAt (env : List (String × List Entry))
    (c : List (String × List Entry)) (k : String) (e : Entry)
    (h : e ∈ dgetD c k []) :
    e ∈ dgetD (env.foldl (fun c kv => extendAt c kv.1 kv.2) c) k [] := by
  induction env generalizing c with
  | nil => exact h
  | cons kv env ih => exact ih _ (mem_dgetD_extendAt _ _ _ _ _ h)

theorem mem_foldl_extendAt_self (env : List (String × List Entry))
    (c : List (String × List Entry)) (kv : String × List Entry) (hkv : kv ∈ env)
    (e : Entry) (he : e ∈ kv.2) :
    e ∈ dgetD (env.foldl (fun c kv => extendAt c kv.1 kv.2) c) kv.1 [] := by
  induction env generalizing c with
  | nil => cases hkv
  | cons kv0 env ih =>
      rcases List.mem_cons.mp hkv with h | h
      · subst h
        rw [List.foldl_cons]
        refine mem_foldl_extendAt env _ _ _ ?_
        rw [dgetD_extendAt_self]
        exact List.mem_append_right _ he
      · rw [List.foldl_cons]
        exact ih _ h

theorem mem_classes_runOneModule (res : Results) (m : String × ModuleRet) (k : String)
    (e : Entry) (h : e ∈ dgetD res.classes k []) :
    e ∈ dgetD (runOneModule res m).classes k [] := by
  obtain ⟨n, b⟩ := m
  cases b with
  | raises tb => exact h
  | badReturn v => exact h
  | returns env => exact mem_foldl_extendAt env res.classes k e h

theorem mem_classes_runModules (mods : List (String × ModuleRet)) (res : Results)
    (k : String) (e : Entry) (h : e ∈ dgetD res.classes k []) :
    e ∈ dgetD (runModules mods res).classes k [] := by
  induction mods generalizing res with
  | nil => exact h
  | cons m ms ih =>
      rw [runModules, List.foldl_cons]
      exact ih _ (mem_classes_runOneModule res m k e h)

/-- C2: module failures are isolated.  For any module list with distinct
names and any module among them: the error list of the finished loop,
restricted to that module's name, is exactly the single entry its outcome
produces (the `exception occurred` entry carrying the traceback's final
line for a raise, the `bad return type` entry carrying the value for a
non-mapping return, nothing for a well-behaved module) provided the
initial errors do not use that name; every entry returned by every
well-behaved module is present in the final merged classes; and a
bad-return step never touches the merged classes. -/
theorem C2_module_isolation (mods : List (String × ModuleRet)) (init : Results)
    (name : String) (mr : ModuleRet)
    (hnodup : (mods.map Prod.fst).Nodup)
    (hmem : (name, mr) ∈ mods)
    (hinit : init.errors.filter (fun i => i.1 == name) = []) :
    (runModules mods init).errors.filter (fun i => i.1 == name) =
      (errOf (name, mr)).toList ∧
    (∀ (n : String) (env : List (String × List Entry)),
        (n, ModuleRet.returns env) ∈ mods →
        ∀ kv ∈ env, ∀ e ∈ kv.2, e ∈ dgetD (runModules mods init).classes kv.1 []) ∧
    (∀ (res : Results) (n : String) (v : String),
        (runOneModule res (n, ModuleRet.badReturn v)).classes = res.classes ∧
        (runOneModule res (n, ModuleRet.badReturn v)).errors =
          res.errors ++ [(n, ⟨"bad return type", some v⟩)]) := by
  refine ⟨?_, ?_, fun res n v => ⟨rfl, rfl⟩⟩
  · obtain ⟨pre, post, rfl⟩ := List.append_of_mem hmem
    rw [List.map_append, List.map_cons] at hnodup
    rw [List.nodup_append] at hnodup
    obtain ⟨hnd1, hnd2, hdisj⟩ := hnodup
    have hpost : name ∉ post.map Prod.fst := (List.nodup_cons.mp hnd2).1
    have hpre : name ∉ pre.map Prod.fst :=
      fun h => hdisj h (List.mem_cons_self _ _)
    rw [runModules_errors, List.filter_append, hinit, List.nil_append,
      List.filterMap_append, List.filter_append, filter_key_filterMap_nil pre name hpre,
      List.nil_append]
    cases hmr : errOf (name, mr) with
    | none =>
        rw [List.filterMap_cons, hmr, filter_key_filterMap_nil post name hpost]
        rfl
    | some e =>
        have hkey : e.1 = name := errOf_key _ _ hmr
        rw [List.filterMap_cons, hmr, List.filter_cons]
        simp only [hkey, beq_self_eq_true, if_true]
        rw [filter_key_filterMap_nil post name hpost]
        rfl
  · intro n env hm kv hkv e he
    obtain ⟨pre, post, rfl⟩ := List.append_of_mem hm
    rw [runModules, List.foldl_append, List.foldl_cons]
    rw [show List.foldl runOneModule
      (runOneModule (List.foldl runOneModule init pre) (n, ModuleRet.returns env)) post =
      runModules post (runOneModule (List.foldl runOneModule init pre)
        (n, ModuleRet.returns env)) from rfl]
    refine mem_classes_runModules _ _ _ _ ?_
    exact mem_foldl_extendAt_self env _ kv hkv e he

/-- The traceback of the failing module in the witness scenario. -/
def tracebackW : List String :=
  ["Traceback (most recent call last):", "ValueError: boom"]

/-- The three-module isolation scenario of §8 of the spec: the second
module raises, the first and third return a success and a failure. -/
def isolationMods : List (String × ModuleRet) :=
  [("m1", ModuleRet.returns [("Success", [⟨"S1", some "D", none⟩])]),
   ("m2", ModuleRet.raises tracebackW),
   ("m3", ModuleRet.returns [("Failure", [⟨"F1", some "E", none⟩])])]

/-- Witness for C2 on the three-module scenario: exactly one error entry
for `m2`, and the entries of `m1` and `m3` are both present. -/
theorem C2_module_isolation_witness :
    (runModules isolationMods ⟨[], []⟩).errors.filter (fun i => i.1 == "m2") =
      (errOf ("m2", ModuleRet.raises tracebackW)).toList ∧
    (⟨"S1", some "D", none⟩ : Entry) ∈
      dgetD (runModules isolationMods ⟨[], []⟩).classes "Success" [] ∧
    (⟨"F1", some "E", none⟩ : Entry) ∈
      dgetD (runModules isolationMods ⟨[], []⟩).classes "Failure" [] := by
  have h := C2_module_isolation isolationMods ⟨[], []⟩ "m2" (ModuleRet.raises tracebackW)
    (by decide) (by decide) (by decide)
  refine ⟨h.1, ?_, ?_⟩
  · exact h.2.1 "m1" [("Success", [⟨"S1", some "D", none⟩])] (by decide)
      ("Success", [⟨"S1", some "D", none⟩]) (by decide) ⟨"S1", some "D", none⟩ (by decide)
  · exact h.2.1 "m3" [("Failure", [⟨"F1", some "E", none⟩])] (by decide)
      ("Failure", [⟨"F1", some "E", none⟩]) (by decide) ⟨"F1", some "E", none⟩ (by decide)

/-! ### C4: profile selection is segment-wise prefix matching -/

/-- The enumerate-and-compare loop of `_run_audit` (lines 255-259) accepts
exactly the segment lists that are list-prefixes of the key's segment
list. -/
theorem enumAll_iff_prefix (segs keyPath : List (List Char)) :
    (segs.enum.all fun ip =>
      decide (ip.1 < keyPath.length) && (keyPath.get? ip.1 == some ip.2)) = true ↔
      segs <+: keyPath := by
  rw [List.all_eq_true]
  constructor
  · intro h
    rw [List.prefix_iff_eq_take]
    apply List.ext_get?
    intro n
    cases hn : segs.get? n with
    | none =>
        have hlen : segs.length ≤ n := List.get?_eq_none.mp hn
        symm
        apply List.get?_eq_none.mpr
        calc (keyPath.take segs.length).length ≤ segs.length := by
              simp [List.length_take]
          _ ≤ n := hlen
    | some x =>
        have hmem : (n, x) ∈ segs.enum := List.mk_mem_enum_iff_get?.mpr hn
        have hx := h _ hmem
        simp only [Bool.and_eq_true, decide_eq_true_eq, beq_iff_eq] at hx
        obtain ⟨hlt, -⟩ := List.get?_eq_some.mp hn
        rw [List.get?_take hlt, hx.2]
  · rintro ⟨t, rfl⟩ ip hmem
    obtain ⟨i, x⟩ := ip
    have hn : segs.get? i = some x := List.mk_mem_enum_iff_get?.mp hmem
    obtain ⟨hlt, -⟩ := List.get?_eq_some.mp hn
    have h2 : (segs ++ t).get? i = some x := by
      rw [List.get?_append hlt, hn]
    simp only [Bool.and_eq_true, decide_eq_true_eq, beq_iff_eq, List.length_append]
    exact ⟨by omega, by simpa using h2⟩

/-- C4: a request matches a loaded key exactly when the request's
slash-segment sequence is a list-prefix (segment-wise equality) of the
key's extension-stripped slash-segment sequence; the bare separator
matches every key; and in the spec's scenario the normalized request
`a.b` matches `/a/b/c` but not `/a/bx/c` (no substring matching). -/
theorem C4_profile_prefix_matching (config key : String) (h : config ≠ "/") :
    (profileMatch config key = true ↔
      splitChars [pathSep] config.data <+:
        splitChars [pathSep] (stripYamlChars key.data)) ∧
    profileMatch "/" key = true ∧
    profileMatch (configToPath "a.b") "/a/b/c" = true ∧
    profileMatch (configToPath "a.b") "/a/bx/c" = false := by
  refine ⟨?_, by simp [profileMatch], by decide, by decide⟩
  simp only [profileMatch]
  rw [if_neg h]
  exact enumAll_iff_prefix _ _

/-- Witness for C4 at the spec's own scenario: request `a.b`
(normalized to `/a/b`) against key `/a/b/c`. -/
theorem C4_profile_prefix_matching_witness :
    (profileMatch "/a/b" "/a/b/c" = true ↔
      splitChars [pathSep] "/a/b".data <+:
        splitChars [pathSep] (stripYamlChars "/a/b/c".data)) ∧
    profileMatch "/" "/a/b/c" = true ∧
    profileMatch (configToPath "a.b") "/a/b/c" = true ∧
    profileMatch (configToPath "a.b") "/a/bx/c" = false :=
  C4_profile_prefix_matching "/a/b" "/a/b/c" (by decide)

/-! ### C5: unmatched requests are reported, processing continues -/


theorem filter_isEmpty_eq_not_any {α : Type} (l : List α) (p : α → Bool) :
    (l.filter p).isEmpty = !l.any p := by
  induction l with
  | nil => rfl
  | cons x xs ih => by_cases hx : p x <;> simp [List.filter_cons, hx, ih]

theorem mem_foldl_insertNew (l : List String) (s : List String) (k : String) :
    k ∈ l.foldl insertNew s ↔ k ∈ s ∨ k ∈ l := by
  induction l generalizing s with
  | nil => simp
  | cons x xs ih =>
      simp only [List.foldl_cons, ih, insertNew]
      by_cases hx : x ∈ s
      · rw [if_pos hx]
        constructor
        · rintro (h | h)
          · exact Or.inl h
          · exact Or.inr (List.mem_cons_of_mem _ h)
        · rintro (h | h)
          · exact Or.inl h
          · rcases List.mem_cons.mp h with h | h
            · exact Or.inl (h ▸ hx)
            · exact Or.inr h
      · rw [if_neg hx]
        constructor
        · rintro (h | h)
          · rcases List.mem_append.mp h with h | h
            · exact Or.inl h
            · simp only [List.mem_singleton] at h
              exact Or.inr (by simp [h])
          · exact Or.inr (List.mem_cons_of_mem _ h)
        · rintro (h | h)
          · exact Or.inl (List.mem_append_left _ h)
          · rcases List.mem_cons.mp h with h | h
            · exact Or.inl (List.mem_append_right _ (by simp [h]))
            · exact Or.inr h

theorem selectStep_fst (loadedKeys : List String) (acc : List String × List (String × ErrInfo))
    (config : String) :
    (selectStep loadedKeys acc config).1 =
      (loadedKeys.filter (fun k => profileMatch config k)).foldl insertNew acc.1 := by
  simp only [selectStep]
  split <;> rfl

theorem selectErrors_go (loadedKeys : List String) (configs : List String)
    (acc : List String × List (String × ErrInfo)) :
    (configs.foldl (selectStep loadedKeys) acc).2 =
      acc.2 ++ (configs.filter
        (fun c => !(loadedKeys.any (fun k => profileMatch c k)))).map
        (fun c => (c, ⟨"No matching profiles found for " ++ c, none⟩)) := by
  induction configs generalizing acc with
  | nil => simp
  | cons c cs ih =>
      simp only [List.foldl_cons, List.filter_cons]
      by_cases hm : (loadedKeys.filter (fun k => profileMatch c k)).isEmpty
      · have hany : (!(loadedKeys.any (fun k => profileMatch c k))) = true := by
          rw [← filter_isEmpty_eq_not_any]
          exact hm
        rw [ih]
        simp only [selectStep, if_pos hm, hany]
        simp
      · have hany : (!(loadedKeys.any (fun k => profileMatch c k))) = false := by
          rw [← filter_isEmpty_eq_not_any]
          simpa using hm
        rw [ih]
        simp only [selectStep, if_neg hm, hany]
        simp

theorem selectRun_mem (loadedKeys : List String) (configs : List String)
    (acc : List String × List (String × ErrInfo)) (k : String) :
    k ∈ (configs.foldl (selectStep loadedKeys) acc).1 ↔
      k ∈ acc.1 ∨ (k ∈ loadedKeys ∧ ∃ c ∈ configs, profileMatch c k = true) := by
  induction configs generalizing acc with
  | nil => simp
  | cons c cs ih =>
      simp only [List.foldl_cons, ih, selectStep_fst, mem_foldl_insertNew, List.mem_filter]
      constructor
      · rintro (( h | h) | h)
        · exact Or.inl h
        · exact Or.inr ⟨h.1, c, List.mem_cons_self _ _, h.2⟩
        · exact Or.inr ⟨h.1, h.2.choose, List.mem_cons_of_mem _ h.2.choose_spec.1, h.2.choose_spec.2⟩
      · rintro (h | ⟨hk, c', hc', hp⟩)
        · exact Or.inl (Or.inl h)
        · rcases List.mem_cons.mp hc' with h | h
          · exact Or.inl (Or.inr ⟨hk, h ▸ hp⟩)
          · exact Or.inr ⟨hk, c', h, hp⟩

/-- C5: every request matching zero loaded keys contributes exactly one
`Errors` entry, keyed by the request with the message
`No matching profiles found for <request>` (in request order), and no
request aborts the run: a key is selected exactly when it is loaded and
some request -- anywhere in the list -- matches it. -/
theorem C5_unmatched_requests (loadedKeys configs : List String) :
    (selectProfiles loadedKeys configs).2 =
      (configs.filter (fun c => !(loadedKeys.any (fun k => profileMatch c k)))).map
        (fun c => (c, ⟨"No matching profiles found for " ++ c, none⟩)) ∧
    ∀ k : String, k ∈ (selectProfiles loadedKeys configs).1 ↔
      k ∈ loadedKeys ∧ ∃ c ∈ configs, profileMatch c k = true := by
  constructor
  · rw [selectProfiles, selectErrors_go]
    rfl
  · intro k
    rw [selectProfiles, selectRun_mem]
    simp

/-! ### C7: terse deduplication versus verbose rendering -/


theorem terseDedup_go (entries : List Entry) (out : List Rendered)
    (seen : List (String × Option String)) :
    ∃ extra : List (String × Option String),
      entries.foldl terseStep (out, seen) =
        (out ++ extra.map (fun p => Rendered.kv p.1 p.2), seen ++ extra) ∧
      extra.Nodup ∧
      (∀ p ∈ extra, p ∉ seen) ∧
      (∀ p ∈ extra, ∃ e ∈ entries, (e.tag, e.description) = p) ∧
      (∀ e ∈ entries, (e.tag, e.description) ∈ seen ++ extra) := by
  induction entries generalizing out seen with
  | nil => exact ⟨[], by simp⟩
  | cons e es ih =>
      by_cases hmem : (e.tag, e.description) ∈ seen
      · obtain ⟨extra, heq, hnd, hns, hsrc, hcov⟩ := ih out seen
        refine ⟨extra, ?_, hnd, hns, ?_, ?_⟩
        · rw [List.foldl_cons, terseStep, if_pos hmem]
          exact heq
        · intro p hp
          obtain ⟨e', he', hpe⟩ := hsrc p hp
          exact ⟨e', List.mem_cons_of_mem _ he', hpe⟩
        · intro e' he'
          rcases List.mem_cons.mp he' with h | h
          · exact List.mem_append_left _ (h ▸ hmem)
          · exact hcov e' h
      · obtain ⟨extra, heq, hnd, hns, hsrc, hcov⟩ :=
          ih (out ++ [Rendered.kv e.tag e.description]) (seen ++ [(e.tag, e.description)])
        refine ⟨(e.tag, e.description) :: extra, ?_, ?_, ?_, ?_, ?_⟩
        · rw [List.foldl_cons, terseStep, if_neg hmem, heq]
          simp
        · rw [List.nodup_cons]
          refine ⟨fun hc => ?_, hnd⟩
          exact (hns _ hc) (List.mem_append_right _ (by simp))
        · intro p hp
          rcases List.mem_cons.mp hp with h | h
          · exact h ▸ hmem
          · intro hpseen
            exact (hns p h) (List.mem_append_left _ hpseen)
        · intro p hp
          rcases List.mem_cons.mp hp with h | h
          · exact ⟨e, List.mem_cons_self _ _, h.symm⟩
          · obtain ⟨e', he', hpe⟩ := hsrc p h
            exact ⟨e', List.mem_cons_of_mem _ he', hpe⟩
        · intro e' he'
          rcases List.mem_cons.mp he' with h | h
          · rw [h]
            exact List.mem_append_right _ (List.mem_cons_self _ _)
          · have := hcov e' h
            rcases List.mem_append.mp this with h2 | h2
            · rcases List.mem_append.mp h2 with h3 | h3
              · exact List.mem_append_left _ h3
              · simp only [List.mem_singleton] at h3
                exact List.mem_append_right _ (h3 ▸ List.mem_cons_self _ _)
            · exact List.mem_append_right _ (List.mem_cons_of_mem _ h2)

theorem kv_mem_terseDedup (entries : List Entry) (t : String) (d : Option String) :
    Rendered.kv t d ∈ terseDedup entries ↔ ∃ e ∈ entries, e.tag = t ∧ e.description = d := by
  obtain ⟨extra, heq, hnd, hns, hsrc, hcov⟩ := terseDedup_go entries [] []
  rw [terseDedup, heq]
  simp only [List.nil_append]
  constructor
  · intro h
    obtain ⟨p, hp, hkv⟩ := List.mem_map.mp h
    obtain ⟨e, he, hpe⟩ := hsrc p hp
    rcases hkv with hkv
    cases hkv
    exact ⟨e, he, congrArg Prod.fst hpe, congrArg Prod.snd hpe⟩
  · rintro ⟨e, he, rfl, rfl⟩
    have := hcov e he
    simp only [List.nil_append] at this
    exact List.mem_map.mpr ⟨(e.tag, e.description), this, rfl⟩

theorem terseDedup_nodup (entries : List Entry) : (terseDedup entries).Nodup := by
  obtain ⟨extra, heq, hnd, hns, hsrc, hcov⟩ := terseDedup_go entries [] []
  rw [terseDedup, heq]
  simp only [List.nil_append]
  refine hnd.map ?_
  intro p q hpq
  cases p
  cases q
  simpa using hpq

/-- An audit module that always reports the failure
`{tag: "T1", description: "D"}` (the dedup scenario of §8 of the spec). -/
def failT1Module : ModuleFn := fun _ _ _ => .returns [("Failure", [⟨"T1", some "D", none⟩])]

/-- Two independently loaded modules both emitting the same failure,
against a single loaded profile. -/
def dupFailEnv : Env :=
  { modules := [("m1", failT1Module), ("m2", failT1Module)],
    data := [("/a/p.yaml", ⟨[]⟩)] }

/-- C7: the terse view deduplicates `Failure`/`Success` entries by the
pair (tag, description) -- membership in the terse list is exactly
existence of an entry with that pair, and the terse list has no duplicates
-- while the verbose view keeps every copy.  In the spec's scenario (two
modules each emitting `Failure {tag: T1, description: D}`) the terse view
holds exactly one `{T1: D}` map and the verbose view two entries under
`T1`. -/
theorem C7_terse_vs_verbose :
    (∀ (entries : List Entry) (t : String) (d : Option String),
        Rendered.kv t d ∈ terseDedup entries ↔
          ∃ e ∈ entries, e.tag = t ∧ e.description = d) ∧
    (∀ entries : List Entry, (terseDedup entries).Nodup) ∧
    (∀ entries : List Entry, (verboseList entries).length = entries.length) ∧
    dget (callClasses (auditFn dupFailEnv [] (some ["a.p"]) "*"
        (some false) (some true) (some true) none [])) "Failure" =
      some [Rendered.kv "T1" (some "D")] ∧
    dget (callClasses (auditFn dupFailEnv [] (some ["a.p"]) "*"
        (some true) (some true) (some true) none [])) "Failure" =
      some [Rendered.full "T1" ⟨"T1", some "D", none⟩,
            Rendered.full "T1" ⟨"T1", some "D", none⟩] := by
  refine ⟨kv_mem_terseDedup, terseDedup_nodup, ?_, by decide, by decide⟩
  intro entries
  simp [verboseList]

/-! ### C9: delegation to `top` when `configs` is absent -/

/-- C9: with `configs` absent, `audit` delegates to `top` on the default
topfile forwarding exactly `verbose`, `show_success` and
`show_compliance`; the caller's `tags`, `debug` and extra keyword
arguments are discarded (the result is invariant under changing them). -/
theorem C9_configs_absent_delegates (env : Env) (topData : List TopEntry)
    (tags tags' : String) (v ss sc : Option Bool) (debug debug' : Option Bool)
    (kw kw' : List (String × String)) :
    auditFn env topData none tags v ss sc debug kw =
      topFn env "top.nova" topData v ss sc ∧
    auditFn env topData none tags v ss sc debug kw =
      auditFn env topData none tags' v ss sc debug' kw' :=
  ⟨rfl, rfl⟩

/-! ### C10: compliance from terse counts versus merged lists -/

/-- An audit module that always reports the success
`{tag: "T1", description: "D"}`. -/
def succT1Module : ModuleFn := fun _ _ _ => .returns [("Success", [⟨"T1", some "D", none⟩])]

/-- An audit module that always reports the failure
`{tag: "T2", description: "E"}`. -/
def failT2Module : ModuleFn := fun _ _ _ => .returns [("Failure", [⟨"T2", some "E", none⟩])]

/-- Two modules duplicating a success plus one failing module, against a
single loaded profile: an input on which the two entry points disagree on
compliance. -/
def dupSuccEnv : Env :=
  { modules := [("m1", succT1Module), ("m2", succT1Module), ("m3", failT2Module)],
    data := [("/a/p.yaml", ⟨[]⟩)] }

/-- C10: `audit` always computes `Compliance` from the deduplicated terse
dictionary -- also when the verbose view is requested -- while `top`
computes it from the merged per-group lists with no deduplication of its
own; on the duplicated-success input the same underlying results yield
`50%` from `audit` (verbose) and `66%` from `top`. -/
theorem C10_compliance_terse_vs_top :
    (∀ (ret : Results) (ss cft : Bool),
        (renderAudit ret true ss true cft).compliance = calculateCompliance (terseView ret) ∧
        (renderAudit ret false ss true cft).compliance = calculateCompliance (terseView ret)) ∧
    (∀ (merged : List (String × List Rendered) × List (String × ErrInfo)) (ss : Bool),
        (topFinalize merged true ss).compliance = calculateCompliance merged.1) ∧
    callCompliance (auditFn dupSuccEnv [] (some ["a.p"]) "*"
        (some true) (some true) (some true) none []) = some "50%" ∧
    callCompliance (topFn dupSuccEnv "top.nova" [TopEntry.str "a.p"]
        (some true) (some true) (some true)) = some "66%" := by
  refine ⟨fun ret ss cft => ⟨rfl, rfl⟩, fun merged ss => rfl, by decide, by decide⟩

/-! ### C8: the topfile no-match message -/

/-- An audit module that returns an empty result dictionary. -/
def emptyModule : ModuleFn := fun _ _ _ => .returns []

/-- A loaded environment whose single module never produces entries. -/
def emptyEnv : Env := { modules := [("m1", emptyModule)], data := [("/a/p.yaml", ⟨[]⟩)] }

/-- C8 counterexample: a topfile run in which no entry applies to the host
(`top_data` is empty) returns the empty early result -- nothing remains in
the mapping, yet no `Messages` entry is attached, because `top` returns at
line 475 before the no-match check. -/
theorem C8_top_no_match_counterexample :
    topFn emptyEnv "top.nova" [] (some false) (some true) (some true) =
      CallResult.out { classes := [], compliance := none, messages := none, errors := [] } := by
  decide

theorem calc_none_of_all_empty {α : Type} (d : List (String × List α))
    (h : d.filter (fun kv => !kv.2.isEmpty) = []) : calculateCompliance d = none := by
  have hall : ∀ kv ∈ d, kv.2.isEmpty = true := by
    intro kv hkv
    have := List.filter_eq_nil_iff.mp h kv hkv
    simpa using this
  have hlen : ∀ k : String, (dgetD d k []).length = 0 := by
    intro k
    cases hx : dget d k with
    | none => simp [dgetD, hx]
    | some lv =>
        have := hall (k, lv) (dget_mem hx)
        simp only [List.isEmpty_iff] at this
        simp [dgetD, hx, this]
  rw [calculateCompliance]
  simp [hlen]

/-- C8 (amended): provided at least one tag group was formed from the
topfile entries, if nothing remains after merging and dropping empty
classes (checked before the `show_success` pop of `Success`) then the
no-match `Messages` entry is attached; when no group is formed, `top`
returns early without it. -/
theorem C8_top_no_match_amended (env : Env) (topfile : String) (topData : List TopEntry)
    (v ss sc : Option Bool)
    (hm : env.modules.isEmpty = false)
    (hg : (dataByTag topfile topData).1.isEmpty = false)
    (hc : (topMerged env topfile topData (v.getD env.confVerbose)).1.filter
        (fun kv => !kv.2.isEmpty) = [])
    (he : (topMerged env topfile topData (v.getD env.confVerbose)).2 = []) :
    callMessages (topFn env topfile topData v ss sc) =
      some "No audits matched this host in the specified profiles." := by
  rw [topFn]
  simp only [hm, Bool.false_eq_true, if_false, hg]
  rw [callMessages, topFinalize]
  simp only [hc, he, List.isEmpty_nil, calc_none_of_all_empty _ hc]
  cases sc.getD env.confShowCompliance <;> simp

/-- Witness for C8 (amended): one group forms from the topfile, the only
module returns nothing, and the no-match message is attached. -/
theorem C8_top_no_match_amended_witness :
    callMessages (topFn emptyEnv "top.nova" [TopEntry.str "a.p"]
        (some false) (some true) (some true)) =
      some "No audits matched this host in the specified profiles." :=
  C8_top_no_match_amended emptyEnv "top.nova" [TopEntry.str "a.p"]
    (some false) (some true) (some true) (by decide) (by decide) (by decide) (by decide)


/-! ### C6: no empty class keys in final output -/


theorem dget_filter_key_ne {α : Type} (d : List (String × α)) (k : String) :
    dget (d.filter (fun kv => kv.1 ≠ k)) k = none := by
  induction d with
  | nil => rfl
  | cons kv rest ih =>
      simp only [ne_eq, decide_not] at ih ⊢
      by_cases hk : kv.1 = k <;>
        simp [List.filter_cons, hk, dget, ih]

theorem dget_append_of_none {α : Type} (d1 d2 : List (String × α)) (k : String)
    (h : dget d1 k = none) : dget (d1 ++ d2) k = dget d2 k := by
  induction d1 with
  | nil => rfl
  | cons kv rest ih =>
      by_cases hk : kv.1 = k
      · simp [dget, hk] at h
      · simp [dget, hk] at h ⊢
        exact ih h

theorem renderTerse_controlled (ret : Results) (ss : Bool) (l : List Rendered)
    (h : dget (renderTerse ret ss) "Controlled" = some l) : l ≠ [] := by
  rw [renderTerse] at h
  have h2 : dget (if ss then terseView ret
      else (terseView ret).filter (fun kv => kv.1 ≠ "Success")) "Controlled" =
        some (terseControlled (dgetD ret.classes "Controlled" [])) := by
    cases ss
    · rfl
    · rfl
  by_cases hemp : (dgetD (if ss then terseView ret
      else (terseView ret).filter (fun kv => kv.1 ≠ "Success")) "Controlled" []).isEmpty
  · rw [if_pos hemp, dget_filter_key_ne] at h
    cases h
  · rw [if_neg hemp, h2] at h
    have hl : l = terseControlled (dgetD ret.classes "Controlled" []) :=
      ((Option.some.injEq _ _).mp h).symm
    rw [dgetD, h2] at hemp
    intro hnil
    rw [hl] at hnil
    rw [show (Option.getD (some (terseControlled (dgetD ret.classes "Controlled" []))) []) =
      terseControlled (dgetD ret.classes "Controlled" []) from rfl, hnil] at hemp
    exact hemp rfl

theorem renderVerbose_controlled (ret : Results) (ss : Bool) (l : List Rendered)
    (h : dget (renderVerbose ret ss) "Controlled" = some l) : l ≠ [] := by
  rw [renderVerbose] at h
  have hnone : dget (if ss then
      [("Failure", verboseList (dgetD ret.classes "Failure" [])),
       ("Success", verboseList (dgetD ret.classes "Success" []))]
      else
      [("Failure", verboseList (dgetD ret.classes "Failure" [])),
       ("Success", verboseList (dgetD ret.classes "Success" []))].filter
         (fun kv => kv.1 ≠ "Success")) "Controlled" = none := by
    cases ss
    · rfl
    · rfl
  have h2 : dget ((if ss then
      [("Failure", verboseList (dgetD ret.classes "Failure" [])),
       ("Success", verboseList (dgetD ret.classes "Success" []))]
      else
      [("Failure", verboseList (dgetD ret.classes "Failure" [])),
       ("Success", verboseList (dgetD ret.classes "Success" []))].filter
         (fun kv => kv.1 ≠ "Success")) ++
        [("Controlled", verboseList (dgetD ret.classes "Controlled" []))]) "Controlled" =
      some (verboseList (dgetD ret.classes "Controlled" [])) := by
    rw [dget_append_of_none _ _ _ hnone]
    rfl
  by_cases hemp : (dgetD ((if ss then
      [("Failure", verboseList (dgetD ret.classes "Failure" [])),
       ("Success", verboseList (dgetD ret.classes "Success" []))]
      else
      [("Failure", verboseList (dgetD ret.classes "Failure" [])),
       ("Success", verboseList (dgetD ret.classes "Success" []))].filter
         (fun kv => kv.1 ≠ "Success")) ++
        [("Controlled", verboseList (dgetD ret.classes "Controlled" []))]) "Controlled" []).isEmpty
  · rw [if_pos hemp, dget_filter_key_ne] at h
    cases h
  · rw [if_neg hemp, h2] at h
    have hl : l = verboseList (dgetD ret.classes "Controlled" []) :=
      ((Option.some.injEq _ _).mp h).symm
    rw [dgetD, h2] at hemp
    intro hnil
    rw [hl] at hnil
    rw [show (Option.getD (some (verboseList (dgetD ret.classes "Controlled" []))) []) =
      verboseList (dgetD ret.classes "Controlled" []) from rfl, hnil] at hemp
    exact hemp rfl


theorem topFn_classes_nonempty (env : Env) (topfile : String) (topData : List TopEntry)
    (v ss sc : Option Bool) (k : String) (l : List Rendered)
    (h : dget (callClasses (topFn env topfile topData v ss sc)) k = some l) : l ≠ [] := by
  rw [topFn] at h
  by_cases hm : env.modules.isEmpty
  · rw [if_pos hm] at h
    cases h
  · rw [if_neg hm] at h
    by_cases hg : (dataByTag topfile topData).1.isEmpty
    · rw [if_pos hg] at h
      cases h
    · rw [if_neg hg, callClasses] at h
      simp only [topFinalize] at h
      have hmem : (k, l) ∈ ((topMerged env topfile topData
          (v.getD env.confVerbose)).1.filter (fun kv => !kv.2.isEmpty)) := by
        by_cases hss : ss.getD env.confShowSuccess
        · rw [if_pos hss] at h
          exact dget_mem h
        · rw [if_neg hss] at h
          exact (List.mem_filter.mp (dget_mem h)).1
      have hne := (List.mem_filter.mp hmem).2
      simp only [Bool.not_eq_eq_eq_not, Bool.not_true] at hne
      intro hnil
      rw [hnil] at hne
      cases hne

/-- A loaded environment whose single module reports one success and
nothing else. -/
def succOnlyEnv : Env :=
  { modules := [("m1", succT1Module)], data := [("/a/p.yaml", ⟨[]⟩)] }

/-- C6 counterexample: a full `audit` run whose modules report only a
success returns a dictionary in which the `Failure` key is present and
mapped to the empty list -- `audit` never pops an empty `Failure` (or a
shown empty `Success`), so the claimed invariant fails for the audit
entry point. -/
theorem C6_no_empty_class_counterexample :
    dget (callClasses (auditFn succOnlyEnv [] (some ["a.p"]) "*"
      (some false) (some true) (some true) none [])) "Failure" = some [] := by
  decide

/-- C6 (amended): in the audit entry point's output only the `Controlled`
key is guaranteed non-empty when present (`Failure`, and `Success` when
shown, may map to empty lists), while in the topfile entry point's final
output every present class key maps to a non-empty list. -/
theorem C6_no_empty_class_amended :
    (∀ (ret : Results) (v ss sc cft : Bool) (l : List Rendered),
        dget (renderAudit ret v ss sc cft).classes "Controlled" = some l → l ≠ []) ∧
    (∀ (env : Env) (topfile : String) (topData : List TopEntry)
        (v ss sc : Option Bool) (k : String) (l : List Rendered),
        dget (callClasses (topFn env topfile topData v ss sc)) k = some l → l ≠ []) := by
  constructor
  · intro ret v ss sc cft l h
    rw [renderAudit] at h
    simp only at h
    by_cases hv : v
    · rw [if_pos hv] at h
      exact renderVerbose_controlled ret ss l h
    · rw [if_neg hv] at h
      exact renderTerse_controlled ret ss l h
  · exact topFn_classes_nonempty

/-- Witness for C6 (amended): a run with one controlled entry in the
audit view, and a topfile run with one failure in the final view. -/
theorem C6_no_empty_class_amended_witness :
    ([Rendered.kv "T1" (some "r")] : List Rendered) ≠ [] ∧
    ([Rendered.kv "T2" (some "E")] : List Rendered) ≠ [] :=
  ⟨C6_no_empty_class_amended.1 ⟨[("Controlled", [⟨"T1", some "D", some (some "r")⟩])], []⟩
      false true true false _ (by decide),
   C6_no_empty_class_amended.2 dupSuccEnv "top.nova" [TopEntry.str "a.p"]
      (some false) (some true) (some true) "Failure" _ (by decide)⟩


end Hubble
